import Mathlib

/-!
Shallow embedding of the ComicAlive panel-detection geometry engine and the
motion-sequence pipeline (`src/models/panel_detector.py`, `src/core/animator.py`,
`src/core/audio_generator.py`, `src/core/project_coordinator.py`).

Modelling conventions:
* Python floats are modelled as exact rationals (`ℚ`); `int()` is truncation
  toward zero (`pyInt`).
* OpenCV image content (contour extraction, pixel rendering, file I/O) is not
  computable from the sources; functions that consume it take the geometric
  data produced by those stages as inputs, and frames are represented by the
  numeric parameters the code computes for them.
* Python `list.sort` / `sorted` are stable sorts; `List.insertionSort` places
  an element before later elements with an equivalent key, matching Python's
  stable order.
-/

/-- Python `int(q)`: truncation toward zero. -/
def pyInt (q : ℚ) : ℤ := if 0 ≤ q then ⌊q⌋ else ⌈q⌉

/-! ## Panel geometry (`panel_detector.py`) -/

/-- A panel rectangle `(x, y, w, h)` as returned by `cv2.boundingRect`. -/
structure Panel where
  x : ℤ
  y : ℤ
  w : ℤ
  h : ℤ
deriving DecidableEq, Repr

/-- `w * h`, the area used when sorting panels largest-first (`p[2] * p[3]`). -/
def Panel.area (p : Panel) : ℤ := p.w * p.h

/-- `overlap_x * overlap_y` from `_merge_overlapping_panels` (lines 136-138):
each factor is `max(0, min(right edges) - max(left edges))`. -/
def overlapArea (a b : Panel) : ℤ :=
  max 0 (min (a.x + a.w) (b.x + b.w) - max a.x b.x) *
  max 0 (min (a.y + a.h) (b.y + b.h) - max a.y b.y)

/-- The merge condition `overlap_area > overlap_threshold * smaller_area` with
`overlap_threshold = 0.3`, cleared of denominators over `ℤ`. -/
def exceedsThreshold (a b : Panel) : Prop :=
  3 * min a.area b.area < 10 * overlapArea a b

instance : DecidableRel exceedsThreshold := fun a b =>
  inferInstanceAs (Decidable (3 * min a.area b.area < 10 * overlapArea a b))

/-- The bounding box that encompasses both panels (lines 147-152). -/
def boundingUnion (a b : Panel) : Panel :=
  { x := min a.x b.x
    y := min a.y b.y
    w := max (a.x + a.w) (b.x + b.w) - min a.x b.x
    h := max (a.y + a.h) (b.y + b.h) - min a.y b.y }

/-- One execution of the inner `for j` loop of `_merge_overlapping_panels` for a
seed whose current merged box is `c`, scanning the not-yet-used panels that
follow the seed in area order.  (All indices before the seed are already used
when the seed is processed, so the inner scan effectively visits exactly the
unused panels after it, in order.)  Returns the final merged box and the
panels left unused. -/
def absorbPass (c : Panel) : List Panel → Panel × List Panel
  | [] => (c, [])
  | p :: ps =>
    if exceedsThreshold c p then
      absorbPass (boundingUnion c p) ps
    else
      let r := absorbPass c ps
      (r.1, p :: r.2)

/-- The outer `for i` loop: take the first unused panel as seed, run one absorb
pass, emit the merged box, continue with the remaining unused panels.  `fuel`
bounds the recursion; `fuel ≥ length` always suffices because a pass never
lengthens the remainder. -/
def mergeLoop : ℕ → List Panel → List Panel
  | _, [] => []
  | 0, _ :: _ => []
  | fuel + 1, p :: ps =>
    let r := absorbPass p ps
    r.1 :: mergeLoop fuel r.2

/-- Area-descending order used by `sorted(panels, key=lambda p: p[2] * p[3],
reverse=True)`. -/
def areaDescRel (a b : Panel) : Prop := b.area ≤ a.area

instance : DecidableRel areaDescRel := fun a b =>
  inferInstanceAs (Decidable (b.area ≤ a.area))

instance : IsTotal Panel areaDescRel := ⟨fun a b => le_total b.area a.area⟩

instance : IsTrans Panel areaDescRel :=
  ⟨fun _ _ _ h1 h2 => le_trans h2 h1⟩

/-- `PanelDetector._merge_overlapping_panels`: sort largest-area-first, then run
the greedy absorb loop.  (The `if not panels: return []` guard is subsumed:
both sides return `[]` on the empty list.) -/
def mergeOverlappingPanels (l : List Panel) : List Panel :=
  mergeLoop (l.insertionSort areaDescRel).length (l.insertionSort areaDescRel)

/-- The `(y, x)` ascending reading order used by
`merged_panels.sort(key=lambda p: (p[1], p[0]))`. -/
def yxRel (a b : Panel) : Prop := a.y < b.y ∨ (a.y = b.y ∧ a.x ≤ b.x)

instance : DecidableRel yxRel := fun a b =>
  inferInstanceAs (Decidable (a.y < b.y ∨ (a.y = b.y ∧ a.x ≤ b.x)))

instance : IsTotal Panel yxRel := by
  constructor
  intro a b
  rcases lt_trichotomy a.y b.y with h | h | h
  · exact Or.inl (Or.inl h)
  · rcases le_total a.x b.x with hx | hx
    · exact Or.inl (Or.inr ⟨h, hx⟩)
    · exact Or.inr (Or.inr ⟨h.symm, hx⟩)
  · exact Or.inr (Or.inl h)

instance : IsTrans Panel yxRel := by
  constructor
  intro a b c hab hbc
  rcases hab with h1 | ⟨h1, h1x⟩ <;> rcases hbc with h2 | ⟨h2, h2x⟩
  · exact Or.inl (lt_trans h1 h2)
  · exact Or.inl (h2 ▸ h1)
  · exact Or.inl (h1 ▸ h2)
  · exact Or.inr ⟨h1.trans h2, le_trans h1x h2x⟩

/-- Lines 92-98 of `PanelDetector.detect`: merge the surviving candidate
rectangles, then sort into reading order.  The computer-vision stage that
produces the candidate list (threshold / morphology / contour filtering,
lines 41-90) is abstracted as the input. -/
def detectPanels (candidates : List Panel) : List Panel :=
  (mergeOverlappingPanels candidates).insertionSort yxRel

/-- `q` contains `p` (as rectangles). -/
def containsRect (q p : Panel) : Prop :=
  q.x ≤ p.x ∧ q.y ≤ p.y ∧ p.x + p.w ≤ q.x + q.w ∧ p.y + p.h ≤ q.y + q.h

instance : DecidableRel containsRect := fun q p =>
  inferInstanceAs (Decidable (q.x ≤ p.x ∧ q.y ≤ p.y ∧ p.x + p.w ≤ q.x + q.w ∧ p.y + p.h ≤ q.y + q.h))

/-- `q` is the exact (least) bounding box of the non-empty panel group
`g.1 :: g.2`. -/
def isExactBoundingBox (q : Panel) (g : Panel × List Panel) : Prop :=
  (∀ p ∈ g.1 :: g.2, containsRect q p) ∧
  ∀ r : Panel, (∀ p ∈ g.1 :: g.2, containsRect r p) → containsRect r q

/-- The bounding box accumulated over a group, in absorb order. -/
def groupBox (g : Panel × List Panel) : Panel := g.2.foldl boundingUnion g.1

/-! ## Motion synthesis (`animator.py`) -/

/-- The ease-in-out interpolation of `create_pan_and_scan` (lines 94-97):
`2t²` for `t < 0.5`, else `1 - (-2t+2)²/2`. -/
def ease (t : ℚ) : ℚ := if t < 1/2 then 2 * t * t else 1 - (-2 * t + 2) ^ 2 / 2

/-- `total_frames = int(duration * self.fps)` (lines 59, 155, 249). -/
def totalFrames (duration fps : ℚ) : ℤ := pyInt (duration * fps)

/-- `t = i / (total_frames - 1) if total_frames > 1 else 0` (lines 91, 184, 256). -/
def interpT (total : ℤ) (i : ℕ) : ℚ :=
  if 1 < total then (i : ℚ) / ((total : ℚ) - 1) else 0

/-- The numeric data computed for one pan-and-scan frame (lines 89-116); the
pixel crop/resize itself is an OpenCV operation on this data. -/
structure PanFrame where
  t : ℚ
  fEase : ℚ
  zoom : ℚ
  cropW : ℤ
  cropH : ℤ
  x : ℤ
  y : ℤ
deriving Repr

/-- Frame `i` of `create_pan_and_scan`'s loop: eased interpolation of zoom and
origin, integer crop size `int(dim / zoom)`, and the clamp
`min(max(0, int(coord)), dim - cropDim)`. -/
def panFrame (W H : ℤ) (startZoom endZoom startX startY endX endY : ℚ)
    (total : ℤ) (i : ℕ) : PanFrame :=
  let t := interpT total i
  let f := ease t
  let zoom := startZoom + f * (endZoom - startZoom)
  let xq := startX + f * (endX - startX)
  let yq := startY + f * (endY - startY)
  let cw := pyInt ((W : ℚ) / zoom)
  let ch := pyInt ((H : ℚ) / zoom)
  { t := t
    fEase := f
    zoom := zoom
    cropW := cw
    cropH := ch
    x := min (max 0 (pyInt xq)) (W - cw)
    y := min (max 0 (pyInt yq)) (H - ch) }

/-- `Animator.create_pan_and_scan`, frame-generation loop (lines 86-124), with
the start/end view parameters of either branch passed in.  One frame is
appended per loop iteration, so the result has `int(duration*fps)` entries
(clamped below at zero by `range`). -/
def createPanAndScan (W H : ℤ) (startZoom endZoom startX startY endX endY : ℚ)
    (duration fps : ℚ) : List PanFrame :=
  (List.range (totalFrames duration fps).toNat).map
    (panFrame W H startZoom endZoom startX startY endX endY (totalFrames duration fps))

/-- `end_zoom = min(width / w, height / h) * 0.8` (line 82). -/
def regionEndZoom (W H w h : ℚ) : ℚ := min (W / w) (H / h) * (4/5)

/-- `end_x = max(0, x - (width / end_zoom - w) / 2)` (lines 83-84), for either
axis. -/
def regionEndOffset (dim target size ez : ℚ) : ℚ :=
  max 0 (target - (dim / ez - size) / 2)

/-- The `region is not None` branch of `create_pan_and_scan` (lines 72-84):
start at the full image (`zoom 1`, origin `(0,0)`) and end zoomed on the
region. -/
def panAndScanRegion (W H x y w h : ℤ) (duration fps : ℚ) : List PanFrame :=
  createPanAndScan W H 1 (regionEndZoom W H (w : ℚ) (h : ℚ)) 0 0
    (regionEndOffset (W : ℚ) (x : ℚ) (w : ℚ) (regionEndZoom W H (w : ℚ) (h : ℚ)))
    (regionEndOffset (H : ℚ) (y : ℚ) (h : ℚ) (regionEndZoom W H (w : ℚ) (h : ℚ)))
    duration fps

/-- The numeric data of one Ken-Burns frame (lines 182-199): linear (not
eased) interpolation of scale and integer offsets; the affine warp itself is
an OpenCV operation on this data. -/
structure KenBurnsFrame where
  t : ℚ
  scale : ℚ
  xOffset : ℤ
  yOffset : ℤ
deriving Repr

/-- Frame `i` of `create_ken_burns_effect`'s loop. -/
def kenBurnsFrame (startScale endScale : ℚ) (startX startY endX endY : ℤ)
    (total : ℤ) (i : ℕ) : KenBurnsFrame :=
  let t := interpT total i
  { t := t
    scale := startScale + t * (endScale - startScale)
    xOffset := pyInt ((startX : ℚ) + t * ((endX : ℚ) - (startX : ℚ)))
    yOffset := pyInt ((startY : ℚ) + t * ((endY : ℚ) - (startY : ℚ))) }

/-- `Animator.create_ken_burns_effect` (lines 126-207).  The random zoom
direction and the random start/end offsets are passed in explicitly
(`zoomIn` selects `1.0 → 1.3` versus `1.3 → 1.0`). -/
def createKenBurnsEffect (zoomIn : Bool) (startX startY endX endY : ℤ)
    (duration fps : ℚ) : List KenBurnsFrame :=
  let ss : ℚ := if zoomIn then 1 else 13/10
  let es : ℚ := if zoomIn then 13/10 else 1
  (List.range (totalFrames duration fps).toNat).map
    (kenBurnsFrame ss es startX startY endX endY (totalFrames duration fps))

/-- One transition frame is characterised by its interpolation factor `t`
(line 256); the per-type pixel blending (fade / slide / zoom, lines 258-301)
renders image content from `t` and is abstracted. -/
structure TransitionFrame where
  t : ℚ
deriving Repr

/-- `Animator.create_panel_transition` frame loop (lines 249-309), with the
`duration=None → self.transition_duration` default already resolved. -/
def createPanelTransition (duration fps : ℚ) : List TransitionFrame :=
  (List.range (totalFrames duration fps).toNat).map
    (fun i => ⟨interpT (totalFrames duration fps) i⟩)

/-! ## Audio generation (`audio_generator.py`) -/

/-- Splitter for Python `str.split()` with no separator: split on runs of
whitespace, discarding empty pieces.  `acc` holds the current word reversed. -/
def splitWsAux : List Char → List Char → List (List Char)
  | acc, [] => if acc.isEmpty then [] else [acc.reverse]
  | acc, c :: cs =>
    if c.isWhitespace then
      if acc.isEmpty then splitWsAux [] cs else acc.reverse :: splitWsAux [] cs
    else splitWsAux (c :: acc) cs

/-- `text.split()`: the whitespace-separated words of `text`. -/
def pyWords (s : String) : List (List Char) := splitWsAux [] s.data

/-- Python `str.isspace()`: non-empty and all whitespace. -/
def pyIsSpace (s : String) : Bool := !s.isEmpty && s.data.all Char.isWhitespace

/-- An audio artifact produced by `generate_speech`: either the TTS response
written to the output path, or the fallback placeholder sine tone of the given
duration in seconds. -/
inductive AudioOut where
  | speech : AudioOut
  | tone (durationSeconds : ℚ) : AudioOut
deriving DecidableEq, Repr

/-- `AudioGenerator._generate_speech_fallback` (lines 99-122): a placeholder
tone of duration `0.1 * len(text.split())` seconds.  (Its `except` branch only
fires on an I/O failure of the sound-file writer, which is environmental and
not modelled.) -/
def generateSpeechFallback (text : String) : Option AudioOut :=
  some (.tone ((1/10) * (pyWords text).length))

/-- `AudioGenerator.generate_speech` (lines 35-97).  `ttsOk` models whether the
external Google Cloud TTS collaborator succeeds; on any failure the `except`
branch substitutes the fallback tone. -/
def generateSpeech (text : String) (ttsOk : Bool) : Option AudioOut :=
  if text.isEmpty || pyIsSpace text then none
  else if ttsOk then some .speech
  else generateSpeechFallback text

/-! ## Pipeline coordination (`project_coordinator.py`) -/

/-- A decompressed page (`comic_data['pages']` entries, lines 76-80). -/
structure PageData where
  id : String
  path : String
  index : ℕ
deriving DecidableEq, Repr

/-- A speech bubble attached to a panel (`image_processor.py` lines 84-88). -/
structure BubbleData where
  id : String
  text : String
deriving DecidableEq, Repr

/-- A detected panel as stored in `comic_data['panels']` (lines 105-111):
the data from `ImageProcessor.process_image` plus the owning page tags. -/
structure PanelData where
  id : String
  page_id : String
  page_index : ℕ
  text : String
  bubbles : List BubbleData
deriving DecidableEq, Repr

/-- A panel as produced by `ImageProcessor.process_image`, before the page
tags are attached by `process_pages`. -/
structure RawPanel where
  id : String
  text : String
  bubbles : List BubbleData
deriving DecidableEq, Repr

/-- A value of the `comic_data['animations']` dict: either a panel animation
(`{'frames': …, 'panel_index': i, 'type': 'panel'}`) or a transition
(`{'frames': …, 'from_panel': a, 'to_panel': b, 'type': 'transition'}`).
The frame paths are produced by the `Animator` collaborator and carry no
information used by the coordinator logic, so they are omitted. -/
inductive AnimEntry where
  | panelAnim (index : ℕ) : AnimEntry
  | transitionAnim (fromPanel toPanel : String) : AnimEntry
deriving DecidableEq, Repr

/-- A Python dict with string keys, as an association list in insertion
order. -/
abbrev AnimDict := List (String × AnimEntry)

/-- Python `d[k] = v`: overwrite in place if the key exists, else append. -/
def dictInsert (k : String) (v : AnimEntry) : AnimDict → AnimDict
  | [] => [(k, v)]
  | (k', v') :: rest =>
    if k' = k then (k, v) :: rest else (k', v') :: dictInsert k v rest

/-- The dict key `f"transition_{i}"` (lines 205, 218, 420). -/
def transKey (i : ℕ) : String := "transition_" ++ toString i

/-- The `for i, panel in enumerate(...)` loop of `create_animations`
(lines 155-230), restricted to the dict it builds: at index `i > 0` insert the
transition entry from the previous panel, then insert the panel entry.
`prev` is `panels[i-1].id` (`none` at `i = 0`). -/
def buildAnims : ℕ → Option String → List PanelData → AnimDict → AnimDict
  | _, _, [], d => d
  | i, prev, p :: ps, d =>
    let d1 := match prev with
      | none => d
      | some q => dictInsert (transKey i) (.transitionAnim q p.id) d
    buildAnims (i + 1) (some p.id) ps (dictInsert p.id (.panelAnim i) d1)

/-- Errors raised by the coordinator stages (`raise ValueError(...)`). -/
inductive CoordErr where
  | noPages : CoordErr
  | noPanels : CoordErr
  | pageIndexOutOfRange : CoordErr
deriving DecidableEq, Repr

/-- The project aggregate `self.comic_data` (lines 49-54). -/
structure ComicData where
  pages : List PageData
  panels : List PanelData
  animations : AnimDict
  audio : List (String × String)
deriving Repr

/-- `ProjectCoordinator.process_pages` (lines 85-117).  `processImage` models
the `ImageProcessor.process_image` collaborator, giving the panels detected on
a page image.  Returns the state as mutated in place plus the raised error, if
any; the guard fires before any mutation. -/
def processPages (processImage : String → List RawPanel) (st : ComicData) :
    ComicData × Option CoordErr :=
  if st.pages = [] then (st, some .noPages)
  else
    ({ st with
        panels := st.pages.flatMap fun pg =>
          (processImage pg.path).map fun rp =>
            { id := rp.id
              page_id := pg.id
              page_index := pg.index
              text := rp.text
              bubbles := rp.bubbles } },
      none)

/-- `ProjectCoordinator.create_animations` (lines 119-236).  The animator
collaborator calls produce only frame files, which the stored dict references
but the coordinator logic never inspects; the dict structure is `buildAnims`.
A panel whose `page_index` is out of range raises `IndexError` at line 161,
before `comic_data['animations']` is assigned. -/
def createAnimations (st : ComicData) : ComicData × Option CoordErr :=
  if st.panels = [] then (st, some .noPanels)
  else if ∀ p ∈ st.panels, p.page_index < st.pages.length then
    ({ st with animations := buildAnims 0 none st.panels [] }, none)
  else (st, some .pageIndexOutOfRange)

/-- `ProjectCoordinator.generate_audio` (lines 238-375).  The per-panel loop
body consists of external TTS / sound-effect / combine collaborator calls;
it is modelled by `audioFor`, the audio map it computes.  The empty-panels
guard fires before the directory creation and any mutation. -/
def generateAudio (audioFor : List PanelData → List (String × String))
    (st : ComicData) : ComicData × Option CoordErr :=
  if st.panels = [] then (st, some .noPanels)
  else ({ st with audio := audioFor st.panels }, none)

/-- A segment appended to `panel_videos` in `render_video` (lines 414-459):
either the rendered transition `transition_{i}.mp4` or the rendered panel clip
(`{id}.mp4`, or `{id}_with_audio.mp4` when panel audio exists). -/
inductive Seg where
  | transitionSeg (i : ℕ) : Seg
  | panelSeg (id : String) (withAudio : Bool) : Seg
deriving DecidableEq, Repr

/-- Whether a segment is a panel clip. -/
def Seg.isPanel : Seg → Bool
  | .panelSeg _ _ => true
  | _ => false

/-- Whether a segment is a transition clip. -/
def Seg.isTransition : Seg → Bool
  | .transitionSeg _ => true
  | _ => false

/-- The segment-assembly loop of `render_video` (lines 415-459): for panel `i`,
first append the transition clip if `i > 0` and `transition_{i}` is in the
animations dict, then append the panel clip unless the panel has no animation
entry (`continue`); `hasAudio` models membership in `comic_data['audio']`. -/
def renderSegments (anims : AnimDict) (hasAudio : String → Bool) :
    ℕ → List PanelData → List Seg
  | _, [] => []
  | i, p :: ps =>
    (if 0 < i ∧ (List.lookup (transKey i) anims).isSome then
        [Seg.transitionSeg i] else []) ++
    (if (List.lookup p.id anims).isSome then
        [Seg.panelSeg p.id (hasAudio p.id)] else []) ++
    renderSegments anims hasAudio (i + 1) ps

/-- The interleaved segment list `transition_i, panel_i, transition_{i+1},
panel_{i+1}, …` starting at index `i ≥ 1`; the closed form of
`renderSegments` after the first panel when every animation entry exists. -/
def interleavedFrom (hasAudio : String → Bool) : ℕ → List PanelData → List Seg
  | _, [] => []
  | i, p :: ps =>
    Seg.transitionSeg i :: Seg.panelSeg p.id (hasAudio p.id) ::
      interleavedFrom hasAudio (i + 1) ps

/-! ## Theorems -/

/-- C9: the ease function used by pan-and-scan, `f(t) = 2t²` for `t < 0.5` and
`f(t) = 1 − (−2t+2)²/2` otherwise, satisfies `f(0) = 0`, `f(1) = 1`,
`f(0.5) = 0.5`, and is monotonic non-decreasing on `[0, 1]`. -/
theorem ease_spec :
    ease 0 = 0 ∧ ease 1 = 1 ∧ ease (1/2) = 1/2 ∧
    ∀ s t : ℚ, 0 ≤ s → s ≤ t → t ≤ 1 → ease s ≤ ease t := by
  refine ⟨by norm_num [ease], by norm_num [ease], by norm_num [ease], ?_⟩
  intro s t h0 hst h1
  unfold ease
  split_ifs with hs ht ht
  · nlinarith
  · nlinarith
  · exact absurd (lt_of_le_of_lt hst ht) hs
  · nlinarith

/-- Witness for C9: the monotonicity clause at `s = 1/4`, `t = 3/4`. -/
theorem ease_spec_witness : ease (1/4) ≤ ease (3/4) :=
  ease_spec.2.2.2 (1/4) (3/4) (by norm_num) (by norm_num) (by norm_num)

/-- C5 counterexample: for a target region filling a 100×100 image,
`end_zoom` is `0.8`, not `max 1 0.8 = 1`: the code applies no `≥ 1.0`
clamp (line 82 of `animator.py`). -/
theorem regionEndZoom_clamp_cex :
    regionEndZoom 100 100 100 100 = 4/5 ∧
    regionEndZoom 100 100 100 100 ≠
      max 1 ((4/5) * min ((100 : ℚ)/100) ((100 : ℚ)/100)) := by
  constructor
  · norm_num [regionEndZoom]
  · norm_num [regionEndZoom]

/-- C5 amended: the end zoom equals `0.8 × min(W/w, H/h)` with no lower
clamp. -/
theorem regionEndZoom_eq :
    ∀ W H w h : ℚ, regionEndZoom W H w h = (4/5) * min (W / w) (H / h) := by
  intro W H w h
  rw [regionEndZoom, mul_comm]

/-- C1 counterexample: at `duration = 0.5`, `fps = 1` the pan-and-scan
generator emits zero frames (`int(0.5) = 0` loop iterations), while the claim
demands `max(1, round(0.5 × 1)) = 1` frame. -/
theorem frameCount_cex :
    (panAndScanRegion 100 100 0 0 50 50 (1/2) 1).length = 0 ∧
    (max 1 (round ((1/2 : ℚ) * 1))).toNat = 1 := by
  constructor
  · have h : totalFrames (1/2) 1 = 0 := by norm_num [totalFrames, pyInt]
    rw [panAndScanRegion, createPanAndScan, List.length_map, List.length_range, h]
    rfl
  · norm_num [round_eq]

/-- C1 amended: each of the three effect generators returns exactly
`int(duration × fps)` frames — truncation toward zero, floored at `0` by the
loop, with no `max(1, ·)` guard — and when that count is exactly `1`, the
single frame is at interpolation factor `t = 0`. -/
theorem frameCount_amended :
    ∀ (W H x y w h : ℤ) (zoomIn : Bool) (sx sy ex ey : ℤ) (duration fps : ℚ),
      (panAndScanRegion W H x y w h duration fps).length =
        (totalFrames duration fps).toNat ∧
      (createKenBurnsEffect zoomIn sx sy ex ey duration fps).length =
        (totalFrames duration fps).toNat ∧
      (createPanelTransition duration fps).length =
        (totalFrames duration fps).toNat ∧
      (totalFrames duration fps = 1 →
        (panAndScanRegion W H x y w h duration fps).map PanFrame.t = [0] ∧
        (createKenBurnsEffect zoomIn sx sy ex ey duration fps).map
          KenBurnsFrame.t = [0] ∧
        (createPanelTransition duration fps).map TransitionFrame.t = [0]) := by
  intro W H x y w h zoomIn sx sy ex ey duration fps
  refine ⟨?_, ?_, ?_, fun h1 => ⟨?_, ?_, ?_⟩⟩
  · simp [panAndScanRegion, createPanAndScan]
  · simp [createKenBurnsEffect]
  · simp [createPanelTransition]
  · rw [panAndScanRegion, createPanAndScan, h1]
    simp [show List.range 1 = [0] from rfl, panFrame, interpT]
  · rw [createKenBurnsEffect]
    rw [h1]
    simp [show List.range 1 = [0] from rfl, kenBurnsFrame, interpT]
  · rw [createPanelTransition, h1]
    simp [show List.range 1 = [0] from rfl, interpT]

/-- Witness for C1 (amended): at `duration = 1`, `fps = 1` the frame count is
`1` and the sole pan-and-scan frame is at `t = 0`. -/
theorem frameCount_amended_witness :
    (panAndScanRegion 100 100 0 0 50 50 1 1).map PanFrame.t = [0] :=
  ((frameCount_amended 100 100 0 0 50 50 true 0 0 0 0 1 1).2.2.2
    (by norm_num [totalFrames, pyInt])).1

/-- C4 counterexample: with a target region covering the whole 100×100 image,
the unclamped `end_zoom = 0.8` makes the crop 125×125 — larger than the
image — and the "clamped" crop origin of the final frame is `-25 < 0`, outside
the image bounds. -/
theorem cropClamp_cex :
    (panAndScanRegion 100 100 0 0 100 100 2 1).map PanFrame.x = [0, -25] ∧
    ((-25 : ℤ) < 0) := by
  refine ⟨?_, by norm_num⟩
  have htf : totalFrames 2 1 = 2 := by norm_num [totalFrames, pyInt]
  have hez : regionEndZoom (((100 : ℤ) : ℚ)) (((100 : ℤ) : ℚ)) (((100 : ℤ) : ℚ))
      (((100 : ℤ) : ℚ)) = 4/5 := by
    norm_num [regionEndZoom]
  rw [panAndScanRegion, hez, createPanAndScan, htf]
  have hoff : regionEndOffset (((100 : ℤ) : ℚ)) (((0 : ℤ) : ℚ)) (((100 : ℤ) : ℚ))
      (4/5) = 0 := by
    have h1 : (((0 : ℤ) : ℚ)) - ((((100 : ℤ) : ℚ)) / (4/5) - (((100 : ℤ) : ℚ))) / 2
        = -(25/2) := by norm_num
    rw [regionEndOffset, h1]
    exact max_eq_left (by norm_num)
  rw [hoff]
  have hrange : ((2 : ℤ)).toNat = 2 := rfl
  rw [hrange, show List.range 2 = [0, 1] from rfl]
  have hf0 : (panFrame 100 100 1 (4/5) 0 0 0 0 2 0).x = 0 := by
    simp only [panFrame]
    norm_num [interpT, ease, pyInt]
  have hf1 : (panFrame 100 100 1 (4/5) 0 0 0 0 2 1).x = -25 := by
    simp only [panFrame]
    have ht : interpT 2 1 = 1 := by norm_num [interpT]
    rw [ht]
    have he : ease 1 = 1 := by norm_num [ease]
    rw [he]
    have hz : (1 : ℚ) + 1 * (4/5 - 1) = 4/5 := by norm_num
    have hxq : (0 : ℚ) + 1 * (0 - 0) = 0 := by norm_num
    rw [hz, hxq]
    have hcw : pyInt ((((100 : ℤ) : ℚ)) / (4/5)) = 125 := by norm_num [pyInt]
    have hx0 : pyInt (0 : ℚ) = 0 := by norm_num [pyInt]
    rw [hcw, hx0]
    decide
  simp only [List.map_cons, List.map_nil, hf0, hf1]

/-- C4 amended: the clamp `min(max(0, int(coord)), dim - cropDim)` keeps the
crop origin within `[0, width - cropWidth] × [0, height - cropHeight]`
whenever the crop fits inside the image (`cropWidth ≤ width` and
`cropHeight ≤ height`, which holds whenever the interpolated zoom is at
least 1); when the unclamped `end_zoom` drops below 1 the crop outgrows the
image and the lower bound fails (see the counterexample). -/
theorem cropClamp_amended :
    ∀ (W H : ℤ) (startZoom endZoom startX startY endX endY duration fps : ℚ),
      ∀ fr ∈ createPanAndScan W H startZoom endZoom startX startY endX endY
          duration fps,
        fr.cropW ≤ W → fr.cropH ≤ H →
        0 ≤ fr.x ∧ fr.x ≤ W - fr.cropW ∧ 0 ≤ fr.y ∧ fr.y ≤ H - fr.cropH := by
  intro W H sz ez sx sy ex ey duration fps fr hfr hw hh
  rw [createPanAndScan] at hfr
  obtain ⟨i, -, rfl⟩ := List.mem_map.mp hfr
  simp only [panFrame] at hw hh ⊢
  refine ⟨le_min (le_max_left 0 _) ?_, min_le_right _ _,
    le_min (le_max_left 0 _) ?_, min_le_right _ _⟩
  · exact sub_nonneg.mpr hw
  · exact sub_nonneg.mpr hh

/-- Witness for C4 (amended): the sole frame of a unit-duration pan over a
100×100 image with `endZoom = 1` has its crop origin inside the bounds. -/
theorem cropClamp_amended_witness :
    0 ≤ (panFrame 100 100 1 1 0 0 0 0 (totalFrames 1 1) 0).x ∧
    (panFrame 100 100 1 1 0 0 0 0 (totalFrames 1 1) 0).x ≤
      100 - (panFrame 100 100 1 1 0 0 0 0 (totalFrames 1 1) 0).cropW ∧
    0 ≤ (panFrame 100 100 1 1 0 0 0 0 (totalFrames 1 1) 0).y ∧
    (panFrame 100 100 1 1 0 0 0 0 (totalFrames 1 1) 0).y ≤
      100 - (panFrame 100 100 1 1 0 0 0 0 (totalFrames 1 1) 0).cropH := by
  have htf : totalFrames 1 1 = 1 := by norm_num [totalFrames, pyInt]
  have hcw : (panFrame 100 100 1 1 0 0 0 0 (totalFrames 1 1) 0).cropW = 100 := by
    rw [htf]
    simp only [panFrame]
    norm_num [interpT, ease, pyInt]
  have hch : (panFrame 100 100 1 1 0 0 0 0 (totalFrames 1 1) 0).cropH = 100 := by
    rw [htf]
    simp only [panFrame]
    norm_num [interpT, ease, pyInt]
  refine cropClamp_amended 100 100 1 1 0 0 0 0 1 1 _ ?_ (by rw [hcw]) (by rw [hch])
  rw [createPanAndScan, htf]
  simp [show List.range 1 = [0] from rfl]

/-- C7: each pipeline stage checks its precondition before mutating anything:
`process_pages` raises when there are no pages, `create_animations` and
`generate_audio` raise when there are no panels, and in each failure case the
project aggregate is returned unchanged. -/
theorem pipeline_preconditions :
    ∀ (st : ComicData) (processImage : String → List RawPanel)
      (audioFor : List PanelData → List (String × String)),
      (st.pages = [] → processPages processImage st = (st, some .noPages)) ∧
      (st.panels = [] → createAnimations st = (st, some .noPanels)) ∧
      (st.panels = [] → generateAudio audioFor st = (st, some .noPanels)) := by
  intro st f g
  refine ⟨fun h => ?_, fun h => ?_, fun h => ?_⟩
  · simp [processPages, h]
  · simp [createAnimations, h]
  · simp [generateAudio, h]

/-- Witness for C7: the freshly created (empty) project rejects all three
stage operations without mutation. -/
theorem pipeline_preconditions_witness :
    processPages (fun _ => []) ⟨[], [], [], []⟩ =
      (⟨[], [], [], []⟩, some .noPages) ∧
    createAnimations ⟨[], [], [], []⟩ = (⟨[], [], [], []⟩, some .noPanels) ∧
    generateAudio (fun _ => []) ⟨[], [], [], []⟩ =
      (⟨[], [], [], []⟩, some .noPanels) :=
  ⟨(pipeline_preconditions ⟨[], [], [], []⟩ (fun _ => []) (fun _ => [])).1 rfl,
   (pipeline_preconditions ⟨[], [], [], []⟩ (fun _ => []) (fun _ => [])).2.1 rfl,
   (pipeline_preconditions ⟨[], [], [], []⟩ (fun _ => []) (fun _ => [])).2.2 rfl⟩

/-- C8: when the text is non-empty and not all whitespace and the external TTS
collaborator fails, `generate_speech` substitutes the fallback placeholder
tone whose duration is `0.1 × (number of whitespace-separated words)` seconds,
and never returns `None`. -/
theorem ttsFallback_spec :
    ∀ text : String, text.isEmpty = false → pyIsSpace text = false →
      generateSpeech text false =
        some (.tone ((1/10) * (pyWords text).length)) ∧
      generateSpeech text false ≠ none := by
  intro text h1 h2
  constructor
  · simp [generateSpeech, h1, h2, generateSpeechFallback]
  · simp [generateSpeech, h1, h2, generateSpeechFallback]

/-- Witness for C8: the two-word text "hello world" produces the fallback
tone (never `None`), with word count `2`, hence duration `0.2` seconds. -/
theorem ttsFallback_spec_witness :
    generateSpeech "hello world" false =
      some (.tone ((1/10) * (pyWords "hello world").length)) ∧
    generateSpeech "hello world" false ≠ none ∧
    (pyWords "hello world").length = 2 :=
  ⟨(ttsFallback_spec "hello world" (by decide) (by decide)).1,
   (ttsFallback_spec "hello world" (by decide) (by decide)).2,
   by decide⟩

/-- C6: for every candidate rectangle list, the panel list returned by
`PanelDetector.detect` is sorted by `(y, x)` ascending — top-to-bottom, then
left-to-right. -/
theorem detect_sorted_yx :
    ∀ candidates : List Panel, List.Sorted yxRel (detectPanels candidates) :=
  fun candidates => List.sorted_insertionSort yxRel (mergeOverlappingPanels candidates)

/-- An absorb pass never lengthens the list of unused panels. -/
theorem absorbPass_rest_length (c : Panel) (l : List Panel) :
    (absorbPass c l).2.length ≤ l.length := by
  induction l generalizing c with
  | nil => simp [absorbPass]
  | cons p ps ih =>
    rw [absorbPass]
    split_ifs with h
    · exact (ih _).trans (Nat.le_succ _)
    · simpa using Nat.succ_le_succ (ih c)

/-- The merge loop never returns more panels than it was given. -/
theorem mergeLoop_length_le : ∀ (fuel : ℕ) (l : List Panel),
    (mergeLoop fuel l).length ≤ l.length := by
  intro fuel
  induction fuel with
  | zero => intro l; cases l <;> simp [mergeLoop]
  | succ f ih =>
    intro l
    cases l with
    | nil => simp [mergeLoop]
    | cons p ps =>
      rw [mergeLoop]
      have h1 := ih (absorbPass p ps).2
      have h2 := absorbPass_rest_length p ps
      simpa using Nat.succ_le_succ (h1.trans h2)

/-- If an absorb pass returns as many unused panels as it was given, it
absorbed nothing: the merged box is the seed itself and no scanned panel
exceeded the overlap threshold against it. -/
theorem absorbPass_no_absorb (c : Panel) (l : List Panel)
    (h : (absorbPass c l).2.length = l.length) :
    absorbPass c l = (c, l) ∧ ∀ p ∈ l, ¬ exceedsThreshold c p := by
  induction l generalizing c with
  | nil => simp [absorbPass]
  | cons p ps ih =>
    rw [absorbPass] at h ⊢
    split_ifs at h ⊢ with hex
    · exfalso
      have := absorbPass_rest_length (boundingUnion c p) ps
      simp at h
      omega
    · have h2 : (absorbPass c ps).2.length = ps.length := by simpa using h
      obtain ⟨heq, hall⟩ := ih c h2
      refine ⟨by rw [heq], ?_⟩
      intro q hq
      rcases List.mem_cons.mp hq with rfl | hq
      · exact hex
      · exact hall q hq

/-- If a run of the merge loop returns as many panels as it was given (no
absorption anywhere), then no two panels of the input exceed the overlap
threshold. -/
theorem mergeLoop_fixpoint_pairwise : ∀ (fuel : ℕ) (l : List Panel),
    l.length ≤ fuel → (mergeLoop fuel l).length = l.length →
    l.Pairwise (fun a b => ¬ exceedsThreshold a b) := by
  intro fuel
  induction fuel with
  | zero =>
    intro l hl _
    have : l = [] := List.length_eq_zero.mp (Nat.le_zero.mp hl)
    simp [this]
  | succ f ih =>
    intro l hl hlen
    cases l with
    | nil => simp
    | cons p ps =>
      rw [mergeLoop] at hlen
      have hrest := absorbPass_rest_length p ps
      have hm := mergeLoop_length_le f (absorbPass p ps).2
      have hr2 : (absorbPass p ps).2.length = ps.length := by
        simp at hlen
        omega
      obtain ⟨heq, hall⟩ := absorbPass_no_absorb p ps hr2
      have hps : (mergeLoop f ps).length = ps.length := by
        rw [heq] at hlen
        simpa using hlen
      refine List.pairwise_cons.mpr ⟨hall, ih ps ?_ hps⟩
      simpa using Nat.le_of_succ_le_succ hl

/-- The overlap area is symmetric in its arguments. -/
theorem overlapArea_comm (a b : Panel) : overlapArea a b = overlapArea b a := by
  unfold overlapArea
  rw [min_comm (a.x + a.w), max_comm a.x, min_comm (a.y + a.h), max_comm a.y]

/-- The merge condition is symmetric in its arguments. -/
theorem exceedsThreshold_comm (a b : Panel) :
    exceedsThreshold a b ↔ exceedsThreshold b a := by
  unfold exceedsThreshold
  rw [overlapArea_comm, min_comm]

/-- C3 counterexample: on the three rectangles below the single greedy pass
produces `[(0,0,19,10), (14,0,9,9)]`, whose members overlap by 45 —
exceeding `0.3 × min(190, 81) = 24.3` — because `(14,0,9,9)` was checked
against the seed before the seed absorbed `(6,0,13,5)` and grew over it;
re-running the merge on this output collapses it to one rectangle, so the
merge is not idempotent. -/
theorem merge_idempotent_cex :
    mergeOverlappingPanels [⟨0,0,10,10⟩, ⟨14,0,9,9⟩, ⟨6,0,13,5⟩] =
      [⟨0,0,19,10⟩, ⟨14,0,9,9⟩] ∧
    exceedsThreshold ⟨0,0,19,10⟩ ⟨14,0,9,9⟩ ∧
    mergeOverlappingPanels [⟨0,0,19,10⟩, ⟨14,0,9,9⟩] = [⟨0,0,23,10⟩] :=
  ⟨by decide, by decide, by decide⟩

/-- C3 amended: a merge pass that absorbs nothing (its output is as long as
its input) certifies that no two input rectangles overlap by more than
`0.3 × min(areaA, areaB)`; but a pass that does absorb can leave two output
rectangles exceeding the threshold (see the counterexample), so re-running
the merge on its own output is not a no-op in general. -/
theorem merge_fixpoint_no_overlap :
    ∀ l : List Panel, (mergeOverlappingPanels l).length = l.length →
      l.Pairwise (fun a b => ¬ exceedsThreshold a b) := by
  intro l hlen
  have hperm : (l.insertionSort areaDescRel).Perm l :=
    List.perm_insertionSort areaDescRel l
  have hsym : ∀ {a b : Panel},
      ¬ exceedsThreshold a b → ¬ exceedsThreshold b a :=
    fun h hc => h ((exceedsThreshold_comm _ _).mpr hc)
  refine (List.Perm.pairwise_iff hsym hperm).mp ?_
  refine mergeLoop_fixpoint_pairwise _ _ le_rfl ?_
  rw [show mergeLoop (l.insertionSort areaDescRel).length
    (l.insertionSort areaDescRel) = mergeOverlappingPanels l from rfl, hlen,
    hperm.length_eq]

/-- Witness for C3 (amended): two far-apart rectangles pass through the merge
untouched, certifying their pairwise overlap is below the threshold. -/
theorem merge_fixpoint_no_overlap_witness :
    ([⟨0,0,10,10⟩, ⟨100,100,10,10⟩] : List Panel).Pairwise
      (fun a b => ¬ exceedsThreshold a b) :=
  merge_fixpoint_no_overlap [⟨0,0,10,10⟩, ⟨100,100,10,10⟩] (by decide)

/-- Rectangle containment is reflexive. -/
theorem containsRect_refl (p : Panel) : containsRect p p := by
  simp [containsRect]

/-- Rectangle containment is transitive. -/
theorem containsRect_trans {q r p : Panel}
    (h1 : containsRect q r) (h2 : containsRect r p) : containsRect q p := by
  unfold containsRect at *
  omega

/-- The bounding union contains its left argument. -/
theorem boundingUnion_contains_left (a b : Panel) :
    containsRect (boundingUnion a b) a := by
  unfold containsRect boundingUnion
  simp only
  omega

/-- The bounding union contains its right argument. -/
theorem boundingUnion_contains_right (a b : Panel) :
    containsRect (boundingUnion a b) b := by
  unfold containsRect boundingUnion
  simp only
  omega

/-- The bounding union is the least rectangle containing both arguments. -/
theorem boundingUnion_least {r a b : Panel}
    (h1 : containsRect r a) (h2 : containsRect r b) :
    containsRect r (boundingUnion a b) := by
  unfold containsRect boundingUnion at *
  simp only
  omega

/-- The accumulated bounding box of a group contains the seed. -/
theorem foldl_boundingUnion_contains_init :
    ∀ (abs : List Panel) (c : Panel),
      containsRect (abs.foldl boundingUnion c) c := by
  intro abs
  induction abs with
  | nil => intro c; exact containsRect_refl c
  | cons a as ih =>
    intro c
    exact containsRect_trans (ih (boundingUnion c a))
      (boundingUnion_contains_left c a)

/-- The accumulated bounding box of a group contains every absorbed panel. -/
theorem foldl_boundingUnion_contains_mem :
    ∀ (abs : List Panel) (c p : Panel), p ∈ abs →
      containsRect (abs.foldl boundingUnion c) p := by
  intro abs
  induction abs with
  | nil => intro c p hp; cases hp
  | cons a as ih =>
    intro c p hp
    rcases List.mem_cons.mp hp with rfl | hp
    · exact containsRect_trans (foldl_boundingUnion_contains_init as _)
        (boundingUnion_contains_right c p)
    · exact ih _ p hp

/-- The accumulated bounding box is least among rectangles containing the seed
and every absorbed panel. -/
theorem foldl_boundingUnion_least :
    ∀ (abs : List Panel) (c r : Panel), containsRect r c →
      (∀ p ∈ abs, containsRect r p) →
      containsRect r (abs.foldl boundingUnion c) := by
  intro abs
  induction abs with
  | nil => intro c r h _; exact h
  | cons a as ih =>
    intro c r hc hall
    exact ih _ r (boundingUnion_least hc (hall a (List.mem_cons_self a as)))
      (fun p hp => hall p (List.mem_cons_of_mem a hp))

/-- An absorb pass yields the bounding box accumulated over some sublist of
absorbed panels, and absorbed plus unused panels are a permutation of the
input. -/
theorem absorbPass_spec :
    ∀ (l : List Panel) (c : Panel),
      ∃ abs : List Panel,
        (absorbPass c l).1 = abs.foldl boundingUnion c ∧
        (abs ++ (absorbPass c l).2).Perm l := by
  intro l
  induction l with
  | nil => intro c; exact ⟨[], rfl, by simp [absorbPass]⟩
  | cons p ps ih =>
    intro c
    rw [absorbPass]
    split_ifs with hex
    · obtain ⟨abs, h1, h2⟩ := ih (boundingUnion c p)
      refine ⟨p :: abs, by simpa using h1, ?_⟩
      simpa using h2.cons p
    · obtain ⟨abs, h1, h2⟩ := ih c
      refine ⟨abs, h1, ?_⟩
      exact List.perm_middle.trans (h2.cons p)

/-- The merge loop partitions its input (up to permutation) into non-empty
groups, one per output panel, each output being the accumulated bounding box
of its group. -/
theorem mergeLoop_spec :
    ∀ (fuel : ℕ) (l : List Panel), l.length ≤ fuel →
      ∃ groups : List (Panel × List Panel),
        mergeLoop fuel l = groups.map groupBox ∧
        ((groups.map (fun g => g.1 :: g.2)).flatten).Perm l := by
  intro fuel
  induction fuel with
  | zero =>
    intro l hl
    have : l = [] := List.length_eq_zero.mp (Nat.le_zero.mp hl)
    subst this
    exact ⟨[], by simp [mergeLoop], by simp⟩
  | succ f ih =>
    intro l hl
    cases l with
    | nil => exact ⟨[], by simp [mergeLoop], by simp⟩
    | cons p ps =>
      obtain ⟨abs, h1, h2⟩ := absorbPass_spec ps p
      have hlen : (absorbPass p ps).2.length ≤ f :=
        (absorbPass_rest_length p ps).trans (by simpa using Nat.le_of_succ_le_succ hl)
      obtain ⟨groups, hg1, hg2⟩ := ih _ hlen
      refine ⟨(p, abs) :: groups, ?_, ?_⟩
      · rw [mergeLoop]
        simp only [List.map_cons, groupBox, h1, hg1]
      · simp only [List.map_cons, List.flatten_cons]
        exact (List.Perm.append_left (p :: abs) hg2).trans (h2.cons p)

/-- C10: merging never loses or shrinks a detected region — the merge output
partitions the input (up to permutation) into non-empty groups whose exact
bounding boxes are the output rectangles, and consequently every input
rectangle is contained within some output rectangle. -/
theorem merge_preserves_regions :
    ∀ l : List Panel,
      (∃ groups : List (Panel × List Panel),
        mergeOverlappingPanels l = groups.map groupBox ∧
        ((groups.map (fun g => g.1 :: g.2)).flatten).Perm l ∧
        ∀ g ∈ groups, isExactBoundingBox (groupBox g) g) ∧
      ∀ p ∈ l, ∃ q ∈ mergeOverlappingPanels l, containsRect q p := by
  intro l
  have hperm : (l.insertionSort areaDescRel).Perm l :=
    List.perm_insertionSort areaDescRel l
  obtain ⟨groups, h1, h2⟩ :=
    mergeLoop_spec (l.insertionSort areaDescRel).length
      (l.insertionSort areaDescRel) le_rfl
  have hflat : ((groups.map (fun g => g.1 :: g.2)).flatten).Perm l :=
    h2.trans hperm
  have hbox : ∀ g ∈ groups, isExactBoundingBox (groupBox g) g := by
    intro g _
    constructor
    · intro p hp
      rcases List.mem_cons.mp hp with rfl | hp
      · exact foldl_boundingUnion_contains_init g.2 g.1
      · exact foldl_boundingUnion_contains_mem g.2 g.1 p hp
    · intro r hr
      exact foldl_boundingUnion_least g.2 g.1 r
        (hr g.1 (List.mem_cons_self g.1 g.2))
        (fun p hp => hr p (List.mem_cons_of_mem g.1 hp))
  refine ⟨⟨groups, h1, hflat, hbox⟩, ?_⟩
  intro p hp
  have hp' : p ∈ (groups.map (fun g => g.1 :: g.2)).flatten :=
    hflat.mem_iff.mpr hp
  obtain ⟨s, hs, hps⟩ := List.mem_flatten.mp hp'
  obtain ⟨g, hg, rfl⟩ := List.mem_map.mp hs
  refine ⟨groupBox g, ?_, (hbox g hg).1 p hps⟩
  rw [mergeOverlappingPanels, h1]
  exact List.mem_map.mpr ⟨g, hg, rfl⟩

/-- Witness for C10: the single input rectangle is contained in some rectangle
of the merge output. -/
theorem merge_preserves_regions_witness :
    ∃ q ∈ mergeOverlappingPanels [(⟨0,0,5,5⟩ : Panel)],
      containsRect q ⟨0,0,5,5⟩ :=
  (merge_preserves_regions [⟨0,0,5,5⟩]).2 ⟨0,0,5,5⟩ (by simp)

/-- Looking up the key just inserted finds the inserted value. -/
theorem lookup_dictInsert_self (d : AnimDict) (k : String) (v : AnimEntry) :
    List.lookup k (dictInsert k v d) = some v := by
  induction d with
  | nil => simp [dictInsert, List.lookup]
  | cons kv rest ih =>
    obtain ⟨k', v'⟩ := kv
    by_cases h : k' = k
    · subst h
      simp [dictInsert, List.lookup]
    · have hne : (k == k') = false := beq_eq_false_iff_ne.mpr (fun h' => h h'.symm)
      simp [dictInsert, h, List.lookup, hne, ih]

/-- Inserting one key leaves lookups of other keys unchanged. -/
theorem lookup_dictInsert_ne (d : AnimDict) (k : String) (v : AnimEntry)
    (k' : String) (h : k' ≠ k) :
    List.lookup k' (dictInsert k v d) = List.lookup k' d := by
  induction d with
  | nil =>
    have hne : (k' == k) = false := beq_eq_false_iff_ne.mpr h
    simp [dictInsert, List.lookup, hne]
  | cons kv rest ih =>
    obtain ⟨k'', v''⟩ := kv
    by_cases h2 : k'' = k
    · subst h2
      have hne : (k' == k'') = false := beq_eq_false_iff_ne.mpr h
      simp [dictInsert, List.lookup, hne]
    · simp [dictInsert, h2, List.lookup, ih]

/-- Insertion preserves key presence. -/
theorem lookup_dictInsert_isSome (d : AnimDict) (k : String) (v : AnimEntry)
    (k' : String) (h : (List.lookup k' d).isSome) :
    (List.lookup k' (dictInsert k v d)).isSome := by
  by_cases hk : k' = k
  · subst hk
    rw [lookup_dictInsert_self]
    rfl
  · rw [lookup_dictInsert_ne d k v k' hk]
    exact h

/-- `buildAnims` preserves key presence in the accumulated dict. -/
theorem buildAnims_preserves_isSome :
    ∀ (l : List PanelData) (i : ℕ) (prev : Option String) (d : AnimDict)
      (k : String), (List.lookup k d).isSome →
      (List.lookup k (buildAnims i prev l d)).isSome := by
  intro l
  induction l with
  | nil => intro i prev d k h; exact h
  | cons p ps ih =>
    intro i prev d k h
    simp only [buildAnims]
    apply ih
    apply lookup_dictInsert_isSome
    cases prev with
    | none => exact h
    | some q => exact lookup_dictInsert_isSome _ _ _ _ h

/-- Every processed panel's id is a key of the dict `buildAnims` builds. -/
theorem buildAnims_panel_isSome :
    ∀ (l : List PanelData) (i : ℕ) (prev : Option String) (d : AnimDict)
      (p : PanelData), p ∈ l →
      (List.lookup p.id (buildAnims i prev l d)).isSome := by
  intro l
  induction l with
  | nil => intro i prev d p hp; cases hp
  | cons r rs ih =>
    intro i prev d p hp
    rcases List.mem_cons.mp hp with rfl | hp
    · simp only [buildAnims]
      apply buildAnims_preserves_isSome
      rw [lookup_dictInsert_self]
      rfl
    · simp only [buildAnims]
      exact ih _ _ _ p hp

/-- When the previous panel exists and at least one panel remains, the current
transition key is a key of the dict `buildAnims` builds. -/
theorem buildAnims_transKey_head_isSome :
    ∀ (l : List PanelData) (i : ℕ) (a : String) (d : AnimDict), l ≠ [] →
      (List.lookup (transKey i) (buildAnims i (some a) l d)).isSome := by
  intro l
  cases l with
  | nil => intro i a d h; exact absurd rfl h
  | cons p ps =>
    intro i a d _
    simp only [buildAnims]
    apply buildAnims_preserves_isSome
    apply lookup_dictInsert_isSome
    rw [lookup_dictInsert_self]
    rfl

/-- Every transition key strictly between the starting index and the end of
the processed list is a key of the dict `buildAnims` builds. -/
theorem buildAnims_transKey_isSome :
    ∀ (l : List PanelData) (i : ℕ) (prev : Option String) (d : AnimDict)
      (j : ℕ), i < j → j < i + l.length →
      (List.lookup (transKey j) (buildAnims i prev l d)).isSome := by
  intro l
  induction l with
  | nil => intro i prev d j h1 h2; simp at h2; omega
  | cons p ps ih =>
    intro i prev d j h1 h2
    simp only [buildAnims]
    rcases Nat.lt_or_ge (i + 1) j with hj | hj
    · exact ih (i + 1) (some p.id) _ j hj (by simp at h2 ⊢; omega)
    · have hji : j = i + 1 := by omega
      subst hji
      have hps : ps ≠ [] := by
        intro h
        subst h
        simp at h2
      exact buildAnims_transKey_head_isSome ps (i + 1) p.id _ hps

/-- If neither a processed panel id nor a processed transition key equals `k`,
processing leaves lookups of `k` unchanged. -/
theorem buildAnims_lookup_frame :
    ∀ (l : List PanelData) (i : ℕ) (prev : Option String) (d : AnimDict)
      (k : String),
      (∀ p ∈ l, p.id ≠ k) →
      (∀ j, i ≤ j → j < i + l.length → transKey j ≠ k) →
      List.lookup k (buildAnims i prev l d) = List.lookup k d := by
  intro l
  induction l with
  | nil => intro i prev d k _ _; rfl
  | cons p ps ih =>
    intro i prev d k hp ht
    have hrec := ih (i + 1) (some p.id) (dictInsert p.id (.panelAnim i)
      (match prev with
        | none => d
        | some q => dictInsert (transKey i) (.transitionAnim q p.id) d)) k
      (fun q hq => hp q (List.mem_cons_of_mem _ hq))
      (fun j h1 h2 => ht j (by omega) (by simp at h2 ⊢; omega))
    have hkp : k ≠ p.id := fun h => hp p (List.mem_cons_self p ps) h.symm
    have hkt : k ≠ transKey i :=
      fun h => ht i le_rfl (by simp) h.symm
    cases prev with
    | none =>
      simp only [buildAnims]
      rw [hrec, lookup_dictInsert_ne _ _ _ _ hkp]
    | some q =>
      simp only [buildAnims]
      rw [hrec, lookup_dictInsert_ne _ _ _ _ hkp,
        lookup_dictInsert_ne _ _ _ _ hkt]

/-- The transition entry inserted at the head step survives to the final dict:
it records the previous panel's id and the current head's id. -/
theorem buildAnims_transKey_head_value :
    ∀ (ps : List PanelData) (p : PanelData) (i : ℕ) (a : String)
      (d : AnimDict),
      (∀ r ∈ p :: ps, r.id ≠ transKey i) →
      (∀ j, i + 1 ≤ j → j < i + 1 + ps.length → transKey j ≠ transKey i) →
      List.lookup (transKey i) (buildAnims i (some a) (p :: ps) d) =
        some (.transitionAnim a p.id) := by
  intro ps p i a d hids htrans
  simp only [buildAnims]
  rw [buildAnims_lookup_frame ps (i + 1) (some p.id) _ (transKey i)
    (fun r hr => hids r (List.mem_cons_of_mem _ hr))
    (fun j h1 h2 => htrans j h1 (by omega))]
  rw [lookup_dictInsert_ne _ _ _ _
    (fun h => hids p (List.mem_cons_self p ps) h.symm)]
  exact lookup_dictInsert_self d (transKey i) _

/-- The transition entry for consecutive panels at positions `j` and `j + 1`
(starting index `i`) maps `transition_{i+j+1}` to the pair of their ids,
provided no later-inserted key collides with that transition key. -/
theorem buildAnims_transKey_value :
    ∀ (l : List PanelData) (i : ℕ) (prev : Option String) (d : AnimDict)
      (j : ℕ) (p q : PanelData),
      l.get? j = some p → l.get? (j + 1) = some q →
      (∀ r ∈ l, r.id ≠ transKey (i + j + 1)) →
      (∀ k', i ≤ k' → k' < i + l.length → k' ≠ i + j + 1 →
        transKey k' ≠ transKey (i + j + 1)) →
      List.lookup (transKey (i + j + 1)) (buildAnims i prev l d) =
        some (.transitionAnim p.id q.id) := by
  intro l
  induction l with
  | nil => intro i prev d j p q hp; simp at hp
  | cons r rs ih =>
    intro i prev d j p q hp hq hids htrans
    cases j with
    | zero =>
      have hpr : r = p := by simpa using hp
      subst hpr
      cases rs with
      | nil => simp at hq
      | cons s rs' =>
        have hqs : s = q := by simpa using hq
        subst hqs
        simp only [buildAnims]
        have h := buildAnims_transKey_head_value rs' s (i + 1) r.id
          (dictInsert r.id (.panelAnim i)
            (match prev with
              | none => d
              | some a => dictInsert (transKey i) (.transitionAnim a r.id) d))
          (fun r' hr' => by
            have := hids r' (List.mem_cons_of_mem _ hr')
            simpa using this)
          (fun j' h1 h2 => by
            refine htrans j' (by omega) (by simp; omega) (by omega))
        simpa using h
    | succ j' =>
      simp only [buildAnims]
      have harith : i + (j' + 1) + 1 = (i + 1) + j' + 1 := by omega
      rw [harith]
      exact ih (i + 1) (some r.id) _ j' p q (by simpa using hp)
        (by simpa using hq)
        (fun r' hr' => by
          have := hids r' (List.mem_cons_of_mem _ hr')
          rwa [harith] at this)
        (fun k' h1 h2 h3 => by
          rw [← harith]
          exact htrans k' (by omega) (by simp; omega) (by omega))

/-- When every transition key and every panel id in range is present in the
animations dict, the render loop from index `i ≥ 1` produces the fully
interleaved transition/panel sequence. -/
theorem renderSegments_closed :
    ∀ (anims : AnimDict) (hasAudio : String → Bool) (l : List PanelData)
      (i : ℕ), 1 ≤ i →
      (∀ j, i ≤ j → j < i + l.length →
        (List.lookup (transKey j) anims).isSome) →
      (∀ p ∈ l, (List.lookup p.id anims).isSome) →
      renderSegments anims hasAudio i l = interleavedFrom hasAudio i l := by
  intro anims audio l
  induction l with
  | nil => intro i _ _ _; rfl
  | cons p ps ih =>
    intro i hi htrans hpanels
    simp only [renderSegments, interleavedFrom]
    rw [if_pos ⟨by omega, htrans i le_rfl (by simp)⟩,
      if_pos (hpanels p (List.mem_cons_self p ps)),
      ih (i + 1) (by omega)
        (fun j h1 h2 => htrans j (by omega) (by simp at h2 ⊢; omega))
        (fun q hq => hpanels q (List.mem_cons_of_mem _ hq))]
    simp

/-- The interleaved sequence contains one panel segment and one transition
segment per panel. -/
theorem interleavedFrom_counts :
    ∀ (hasAudio : String → Bool) (l : List PanelData) (i : ℕ),
      (interleavedFrom hasAudio i l).countP Seg.isPanel = l.length ∧
      (interleavedFrom hasAudio i l).countP Seg.isTransition = l.length := by
  intro audio l
  induction l with
  | nil => intro i; simp [interleavedFrom]
  | cons p ps ih =>
    intro i
    have := ih (i + 1)
    simp [interleavedFrom, List.countP_cons, Seg.isPanel, Seg.isTransition]
    omega

/-- In the interleaved sequence, the transition at index `i + j` immediately
precedes the segment of the panel at position `j`. -/
theorem interleavedFrom_adjacency :
    ∀ (hasAudio : String → Bool) (l : List PanelData) (i j : ℕ)
      (p : PanelData), l.get? j = some p →
      ∃ pre post, interleavedFrom hasAudio i l =
        pre ++ Seg.transitionSeg (i + j) ::
          Seg.panelSeg p.id (hasAudio p.id) :: post := by
  intro audio l
  induction l with
  | nil => intro i j p hp; simp at hp
  | cons r rs ih =>
    intro i j p hp
    cases j with
    | zero =>
      have hpr : r = p := by simpa using hp
      subst hpr
      exact ⟨[], interleavedFrom audio (i + 1) rs, by simp [interleavedFrom]⟩
    | succ j' =>
      obtain ⟨pre, post, hpre⟩ := ih (i + 1) j' p (by simpa using hp)
      refine ⟨Seg.transitionSeg i :: Seg.panelSeg r.id (audio r.id) :: pre,
        post, ?_⟩
      have harith : i + 1 + j' = i + (j' + 1) := by omega
      simp only [interleavedFrom, hpre, harith, List.cons_append]

/-- C2: if the animate stage completed for the `N ≥ 1` panels (building the
animations dict `buildAnims 0 none panels []`), and no panel id collides with
a `transition_{j}` dict key, then the assembled sequence contains exactly `N`
panel segments and `N − 1` transition segments, and for consecutive panels at
positions `j` and `j + 1` the dict maps `transition_{j+1}` to the clip from
the first to the second while the `transition_{j+1}` segment immediately
precedes the second panel's segment. -/
theorem segment_interleaving :
    ∀ (panels : List PanelData) (hasAudio : String → Bool),
      panels ≠ [] →
      (∀ p ∈ panels, ∀ j, j < panels.length → 1 ≤ j → p.id ≠ transKey j) →
      (∀ j, j < panels.length → ∀ k, k < panels.length → j ≠ k →
        transKey j ≠ transKey k) →
      (renderSegments (buildAnims 0 none panels []) hasAudio 0 panels).countP
          Seg.isPanel = panels.length ∧
      (renderSegments (buildAnims 0 none panels []) hasAudio 0 panels).countP
          Seg.isTransition = panels.length - 1 ∧
      ∀ j p q, panels.get? j = some p → panels.get? (j + 1) = some q →
        List.lookup (transKey (j + 1)) (buildAnims 0 none panels []) =
          some (.transitionAnim p.id q.id) ∧
        ∃ pre post,
          renderSegments (buildAnims 0 none panels []) hasAudio 0 panels =
            pre ++ Seg.transitionSeg (j + 1) ::
              Seg.panelSeg q.id (hasAudio q.id) :: post := by
  intro panels audio hne hcol hinj
  obtain ⟨p0, rest, rfl⟩ := List.exists_cons_of_ne_nil hne
  have hrend : renderSegments (buildAnims 0 none (p0 :: rest) []) audio 0
      (p0 :: rest) =
      Seg.panelSeg p0.id (audio p0.id) :: interleavedFrom audio 1 rest := by
    simp only [renderSegments]
    rw [if_neg (by simp),
      if_pos (buildAnims_panel_isSome (p0 :: rest) 0 none [] p0
        (List.mem_cons_self p0 rest)),
      renderSegments_closed _ audio rest 1 le_rfl
        (fun j h1 h2 => buildAnims_transKey_isSome (p0 :: rest) 0 none [] j
          (by omega) (by simp at h2 ⊢; omega))
        (fun q hq => buildAnims_panel_isSome (p0 :: rest) 0 none [] q
          (List.mem_cons_of_mem _ hq))]
    simp
  refine ⟨?_, ?_, ?_⟩
  · rw [hrend]
    have := interleavedFrom_counts audio rest 1
    simp [List.countP_cons, Seg.isPanel]
    omega
  · rw [hrend]
    have := interleavedFrom_counts audio rest 1
    simp [List.countP_cons, Seg.isTransition]
    omega
  · intro j p q hp hq
    have hlt : j + 1 < (p0 :: rest).length := by
      by_contra hge
      rw [List.get?_eq_none.mpr (by omega)] at hq
      exact Option.noConfusion hq
    constructor
    · have h := buildAnims_transKey_value (p0 :: rest) 0 none [] j p q hp hq
        (fun r hr => by simpa using hcol r hr (j + 1) hlt (by omega))
        (fun k' _ h2 h3 => by
          simp only [Nat.zero_add] at h2 h3 ⊢
          exact hinj k' (by simpa using h2) (j + 1) hlt h3)
      simpa using h
    · obtain ⟨pre, post, hpp⟩ :=
        interleavedFrom_adjacency audio rest 1 j q (by simpa using hq)
      refine ⟨Seg.panelSeg p0.id (audio p0.id) :: pre, post, ?_⟩
      rw [hrend, hpp]
      have harith : 1 + j = j + 1 := by omega
      simp [harith]

/-- Witness for C2: a two-panel project yields two panel segments (and, by
the same theorem, one interleaved transition). -/
theorem segment_interleaving_witness :
    (renderSegments
        (buildAnims 0 none
          [⟨"a", "pg", 0, "", []⟩, ⟨"b", "pg", 0, "", []⟩] [])
        (fun _ => false) 0
        [⟨"a", "pg", 0, "", []⟩, ⟨"b", "pg", 0, "", []⟩]).countP
      Seg.isPanel = 2 :=
  (segment_interleaving
    [⟨"a", "pg", 0, "", []⟩, ⟨"b", "pg", 0, "", []⟩]
    (fun _ => false) (by decide) (by decide) (by decide)).1
